import Mathlib

/-!
Shallow embedding of the task-manager core (jonidefjan/Task-Manager).

The two source files carrying the verified logic are
`src/services/TaskService.ts` (domain service: creation, update, toggle,
filtering, statistics, sorting) and `src/repositories/TaskRepository.ts`
(class `LocalStorageTaskRepository`: persistence over `localStorage`).

Modelling conventions:
* JavaScript strings are `List Char`; `.length` is the list length
  (UTF-16 surrogate pairs are out of scope for the claims at hand).
* A JavaScript `Date` is `Option Nat`: `some ms` is a date holding the
  epoch-millisecond timestamp `ms`, `none` is an Invalid Date (the result
  of `new Date(s)` on an unparseable string, whose `getTime()` is NaN).
* `Date.prototype.toISOString` / `new Date(string)` are platform
  functions, not repository code.  They are modelled at the level of
  their contract — an injective millisecond-precision textual rendering
  of the timestamp together with its parser — by `isoOfTime` and
  `parseTime` below; `parseTime (isoOfTime n) = some n` is proved.
* The `localStorage` slot under the repository's fixed key is
  `Option Json`: `none` is a missing entry, `some v` an entry whose text
  content parses (via `JSON.parse`) to the structured value `v`.
  `JSON.stringify` is modelled by `jstringify`, used for the serialized
  size check in `save`.
* Throwing code is embedded with `Except` / explicit error results, and
  the current time (`new Date()` / `Date.now()`) is passed explicitly as
  a `now : Nat` argument.
* JavaScript receiver semantics are modelled where they matter:
  `findAll` passes its deserializer to `Array.prototype.map` unbound, so
  the method runs with `this = undefined` and throws on its first
  `this.`-access; `deserializeTaskUnbound` captures that actual
  behavior, while `deserializeTask` is the method's body under a bound
  receiver (what the sibling arrow-wrapped call sites get).
-/

namespace TaskManager

/-- Decidable equality of call results, so that concrete runs of the
embedded operations can be checked by evaluation. -/
instance {ε α : Type} [DecidableEq ε] [DecidableEq α] :
    DecidableEq (Except ε α) := fun x y =>
  match x, y with
  | Except.ok a, Except.ok b =>
    if h : a = b then isTrue (by rw [h]) else isFalse (by simp [h])
  | Except.error a, Except.error b =>
    if h : a = b then isTrue (by rw [h]) else isFalse (by simp [h])
  | Except.ok _, Except.error _ => isFalse (by simp)
  | Except.error _, Except.ok _ => isFalse (by simp)

/-- Character class of the JavaScript regular-expression class `\s`
(also the set trimmed by `String.prototype.trim`). -/
def isJsWhitespace (c : Char) : Bool :=
  c = '\t' || c = '\n' || c = '\u000B' || c = '\u000C' || c = '\r' ||
  c = ' ' || c = '\u00A0' || c = '\u1680' ||
  ('\u2000' ≤ c && c ≤ '\u200A') ||
  c = '\u2028' || c = '\u2029' || c = '\u202F' || c = '\u205F' ||
  c = '\u3000' || c = '\uFEFF'

/-- JavaScript `String.prototype.trim`: drop leading and trailing
whitespace. -/
def trimChars (s : List Char) : List Char :=
  ((s.dropWhile isJsWhitespace).reverse.dropWhile isJsWhitespace).reverse

/-- JavaScript `.replace(/\s+/g, ' ')`: every maximal run of whitespace
characters becomes a single space. -/
def collapseWs : List Char → List Char
  | [] => []
  | [c] => if isJsWhitespace c then [' '] else [c]
  | c₁ :: c₂ :: rest =>
    if isJsWhitespace c₁ && isJsWhitespace c₂ then collapseWs (c₂ :: rest)
    else (if isJsWhitespace c₁ then ' ' else c₁) :: collapseWs (c₂ :: rest)

/-- `TaskService.sanitizeTitle`: `title.trim().replace(/\s+/g, ' ')`. -/
def sanitizeTitle (title : List Char) : List Char :=
  collapseWs (trimChars title)

/-- `TaskService.validateTitle`: `title.length > 0 && title.length <= 255`. -/
def validateTitle (title : List Char) : Bool :=
  0 < title.length && title.length ≤ 255

/-- Decimal digit character for `d < 10` (used to render numbers the way
`Number.prototype.toString` renders naturals). -/
def decDigit (d : Nat) : Char := Char.ofNat (48 + d)

/-- Little-endian decimal digits, structurally recursive on a fuel
argument (`fuel > n` suffices, since dividing by ten shrinks fast). -/
def toDecRevAux : Nat → Nat → List Char
  | 0, _ => []
  | fuel + 1, n =>
    if n < 10 then [decDigit n]
    else decDigit (n % 10) :: toDecRevAux fuel (n / 10)

/-- Little-endian decimal digits of a natural number. -/
def toDecRev (n : Nat) : List Char := toDecRevAux (n + 1) n

/-- Big-endian decimal rendering of a natural number. -/
def toDecimal (n : Nat) : List Char := (toDecRev n).reverse

/-- Numeric value of a digit character. -/
def decVal (c : Char) : Nat := c.toNat - 48

/-- Value of a little-endian digit list. -/
def fromDecRev : List Char → Nat
  | [] => 0
  | c :: cs => decVal c + 10 * fromDecRev cs

/-- Value of a big-endian digit list. -/
def fromDecimal (s : List Char) : Nat := fromDecRev s.reverse

/-- Test for a decimal digit character. -/
def isDecDigit (c : Char) : Bool := '0' ≤ c && c ≤ '9'

inductive TaskStatus where
  | pending
  | completed
deriving DecidableEq

/-- The `TaskEntity` record of `src/types/core.ts`.  `createdAt` and
`updatedAt` are JavaScript `Date`s, see the module conventions. -/
structure TaskEntity where
  id : List Char
  title : List Char
  status : TaskStatus
  createdAt : Option Nat
  updatedAt : Option Nat
deriving DecidableEq

/-- The `TaskCreationData` record: the requested title. -/
structure TaskCreationData where
  title : List Char
deriving DecidableEq

/-- The `TaskUpdateData` record: optional title and status patch fields
(`none` models an absent/`undefined` field). -/
structure TaskUpdateData where
  title : Option (List Char)
  status : Option TaskStatus
deriving DecidableEq

/-- The only domain-service failure: the throw of `Error('Task title must
be between 1 and 255 characters')` in `createTask` / `updateTask`. -/
inductive DomainError where
  | validationError
deriving DecidableEq

/-- `TaskService.generateId`.  The source interpolates `Date.now()` and a
`Math.random()` suffix; randomness is not modelled, only the
deterministic time-based part is kept. -/
def generateId (now : Nat) : List Char :=
  ('t' :: 'a' :: 's' :: 'k' :: '_' :: toDecimal now) ++ ['_']

/-- `TaskService.createTask`, with `new Date()` passed as `now`. -/
def createTask (data : TaskCreationData) (now : Nat) :
    Except DomainError TaskEntity :=
  let title := sanitizeTitle data.title
  if validateTitle title then
    Except.ok
      { id := generateId now
        title := title
        status := TaskStatus.pending
        createdAt := some now
        updatedAt := some now }
  else Except.error DomainError.validationError

/-- `TaskService.updateTask`, with `new Date()` passed as `now`.  The
source copies the task, applies each present patch field tracking a
`hasChanges` flag (set unconditionally for a present title, and for a
present status only when it differs from `task.status`), and bumps
`updatedAt` exactly when the flag is set. -/
def updateTask (task : TaskEntity) (updates : TaskUpdateData) (now : Nat) :
    Except DomainError TaskEntity :=
  let step1 : Except DomainError (TaskEntity × Bool) :=
    match updates.title with
    | none => Except.ok (task, false)
    | some t =>
      let sanitized := sanitizeTitle t
      if validateTitle sanitized then
        Except.ok ({ task with title := sanitized }, true)
      else Except.error DomainError.validationError
  match step1 with
  | Except.error e => Except.error e
  | Except.ok (t₁, changed₁) =>
    let step2 : TaskEntity × Bool :=
      match updates.status with
      | none => (t₁, changed₁)
      | some st =>
        if st ≠ task.status then ({ t₁ with status := st }, true)
        else (t₁, changed₁)
    if step2.2 then Except.ok { step2.1 with updatedAt := some now }
    else Except.ok step2.1

/-- `TaskService.toggleTaskStatus`: update with the opposite status. -/
def toggleTaskStatus (task : TaskEntity) (now : Nat) :
    Except DomainError TaskEntity :=
  updateTask task
    { title := none
      status := some
        (if task.status = TaskStatus.pending then TaskStatus.completed
         else TaskStatus.pending) }
    now

inductive FilterType where
  | all
  | active
  | completed
deriving DecidableEq

/-- The predicate of `TaskService.getFilter` for each filter type. -/
def filterPredicate : FilterType → TaskEntity → Bool
  | FilterType.all, _ => true
  | FilterType.active, task => task.status = TaskStatus.pending
  | FilterType.completed, task => task.status = TaskStatus.completed

/-- `TaskService.filterTasks`: `tasks.filter(filter.predicate)`. -/
def filterTasks (tasks : List TaskEntity) (filterType : FilterType) :
    List TaskEntity :=
  tasks.filter (filterPredicate filterType)

/-- The `TaskStats` record.  JavaScript numbers are modelled as `ℤ` here
(all four fields are integral). -/
structure TaskStats where
  total : ℤ
  completed : ℤ
  pending : ℤ
  completionRate : ℤ
deriving DecidableEq

/-- JavaScript `Math.round`: nearest integer, halves toward `+∞`. -/
def jsRound (q : ℚ) : ℤ := ⌊q + 1 / 2⌋

/-- `TaskService.calculateStats`.  The float arithmetic
`(completed / total) * 100` is modelled exactly over `ℚ`. -/
def calculateStats (tasks : List TaskEntity) : TaskStats :=
  let total : ℤ := tasks.length
  let completed : ℤ :=
    (tasks.filter (fun task => task.status = TaskStatus.completed)).length
  let pending : ℤ := total - completed
  let completionRate : ℤ :=
    if 0 < total then jsRound ((completed : ℚ) / (total : ℚ) * 100) else 0
  { total := total, completed := completed, pending := pending
    completionRate := completionRate }

/-- Comparator body of `TaskService.sortTasksByCreationDate`:
`a.createdAt.getTime() - b.createdAt.getTime()`.  Per the ECMAScript
`SortCompare` step "if v is NaN, return +0", a NaN comparison result
(some operand an Invalid Date) acts as `0`. -/
def compareCreatedAt (a b : TaskEntity) : ℤ :=
  match a.createdAt, b.createdAt with
  | some x, some y => (x : ℤ) - (y : ℤ)
  | _, _ => 0

/-- The comparator actually passed to `sort`: the comparison, negated
when `descending` is requested. -/
def sortComparator (descending : Bool) (a b : TaskEntity) : ℤ :=
  if descending then -(compareCreatedAt a b) else compareCreatedAt a b

/-- Keep `a` before `b` when the comparator is non-positive.  A stable
sort with respect to this test is exactly what `Array.prototype.sort`
(required stable since ES2019) produces for a consistent comparator. -/
def keepsOrder (descending : Bool) (a b : TaskEntity) : Bool :=
  sortComparator descending a b ≤ 0

/-- Stable insertion of `x` into `l`: `x` goes in front of the first
element it need not follow. -/
def stableInsert (le : α → α → Bool) (x : α) : List α → List α
  | [] => [x]
  | y :: ys => if le x y then x :: y :: ys else y :: stableInsert le x ys

/-- Stable insertion sort, the model of `Array.prototype.sort`. -/
def stableSort (le : α → α → Bool) : List α → List α
  | [] => []
  | x :: xs => stableInsert le x (stableSort le xs)

/-- `TaskService.sortTasksByCreationDate`: `[...tasks].sort(comparator)`
(the input array is copied, never mutated). -/
def sortTasksByCreationDate (tasks : List TaskEntity) (descending : Bool) :
    List TaskEntity :=
  stableSort (keepsOrder descending) tasks

/-! ## Persistence: `LocalStorageTaskRepository` -/

/-- Structured JSON values, the possible results of `JSON.parse` on the
stored text (JSON numbers are restricted to integers, which covers every
value the claims exercise). -/
inductive Json where
  | str (s : List Char)
  | num (n : ℤ)
  | bool (b : Bool)
  | null
  | arr (elems : List Json)
  | obj (fields : List (List Char × Json))

/-- Last-wins association-list lookup: `JSON.parse` keeps the last of
duplicate keys, so reading property `key` of a parsed object finds the
last pair carrying it. -/
def getField (fields : List (List Char × Json)) (key : List Char) :
    Option Json :=
  fields.foldl (fun acc p => if p.1 = key then some p.2 else acc) none

/-- Property access that is a string, `typeof v === 'string'`. -/
def isStrField (v : Option Json) : Bool :=
  match v with
  | some (Json.str _) => true
  | _ => false

/-- The stored text of a task status. -/
def statusChars : TaskStatus → List Char
  | TaskStatus.pending => ['p', 'e', 'n', 'd', 'i', 'n', 'g']
  | TaskStatus.completed => ['c', 'o', 'm', 'p', 'l', 'e', 't', 'e', 'd']

def idKey : List Char := ['i', 'd']
def titleKey : List Char := ['t', 'i', 't', 'l', 'e']
def statusKey : List Char := ['s', 't', 'a', 't', 'u', 's']
def createdAtKey : List Char := ['c', 'r', 'e', 'a', 't', 'e', 'd', 'A', 't']
def updatedAtKey : List Char := ['u', 'p', 'd', 'a', 't', 'e', 'd', 'A', 't']

/-- `LocalStorageTaskRepository.isValidTaskData`: a non-null object with
string `id`, `title`, `createdAt`, `updatedAt` and a `status` equal to
`'pending'` or `'completed'`. -/
def isValidTaskData (data : Json) : Bool :=
  match data with
  | Json.obj fields =>
    isStrField (getField fields idKey) &&
    isStrField (getField fields titleKey) &&
    (match getField fields statusKey with
     | some (Json.str s) =>
       s = statusChars TaskStatus.pending ||
       s = statusChars TaskStatus.completed
     | _ => false) &&
    isStrField (getField fields createdAtKey) &&
    isStrField (getField fields updatedAtKey)
  | _ => false

/-- Model of `Date.prototype.toISOString` at millisecond precision: an
injective textual rendering of the timestamp (the decimal milliseconds;
the Gregorian presentation of the real format carries no extra
information). -/
def isoOfTime (ms : Nat) : List Char := toDecimal ms

/-- Model of `new Date(string)` on the strings `isoOfTime` produces:
`some ms` on an all-digit rendering, `none` (an Invalid Date) on
anything unparseable. -/
def parseTime (s : List Char) : Option Nat :=
  if s ≠ [] ∧ s.all isDecDigit then some (fromDecimal s) else none

/-- Body of `LocalStorageTaskRepository.deserializeTask` as it behaves
when invoked on its receiver (so that `this.isValidTaskData` resolves):
validate, then rebuild the task, parsing each timestamp with `new Date`
(which yields an Invalid Date, never a failure, on an unparseable
string).  NOTE: `findAll` does not invoke the method this way — see
`deserializeTaskUnbound`. -/
def deserializeTask (data : Json) : Option TaskEntity :=
  if isValidTaskData data then
    match data with
    | Json.obj fields =>
      match getField fields idKey, getField fields titleKey,
          getField fields statusKey, getField fields createdAtKey,
          getField fields updatedAtKey with
      | some (Json.str i), some (Json.str t), some (Json.str st),
          some (Json.str c), some (Json.str u) =>
        some
          { id := i
            title := t
            status :=
              if st = statusChars TaskStatus.completed then
                TaskStatus.completed
              else TaskStatus.pending
            createdAt := parseTime c
            updatedAt := parseTime u }
      | _, _, _, _, _ => none
    | _ => none
  else none

/-- `LocalStorageTaskRepository.serializeTask`, fallible because
`toISOString` throws a `RangeError` on an Invalid Date. -/
def serializeTask (task : TaskEntity) : Option Json :=
  match task.createdAt, task.updatedAt with
  | some c, some u =>
    some (Json.obj
      [(idKey, Json.str task.id),
       (titleKey, Json.str task.title),
       (statusKey, Json.str (statusChars task.status)),
       (createdAtKey, Json.str (isoOfTime c)),
       (updatedAtKey, Json.str (isoOfTime u))])
  | _, _ => none

/-- `deserializeTask` as `findAll` actually invokes it:
`parsed.map(this.deserializeTask)` passes the method to
`Array.prototype.map` unbound, so inside the call `this` is `undefined`
(class bodies are strict-mode code and `map` supplies no receiver).
The first statement inside the method's `try`,
`this.isValidTaskData(data)`, then throws a `TypeError`, the method's
own `catch` returns `null`, and this happens for every element
regardless of its content. -/
def deserializeTaskUnbound (_data : Json) : Option TaskEntity := none

/-- `tasks.map(this.serializeTask)`, propagating a serialization throw.
This `map` call is unbound too, but `serializeTask`'s body never
references `this`, so losing the receiver is harmless here. -/
def serializeAll : List TaskEntity → Option (List Json)
  | [] => some []
  | t :: ts =>
    match serializeTask t, serializeAll ts with
    | some v, some vs => some (v :: vs)
    | _, _ => none

/-- The storage slot under the repository's fixed key
`'todoapp_tasks_v1'`: absent, or holding text that parses to a `Json`
value (text `JSON.parse` rejects is not reachable from `save`, whose
writes always are well-formed JSON). -/
def Store : Type := Option Json

/-- `LocalStorageTaskRepository.findAll`: a missing entry or a
non-array gives `[]`; an array is mapped through
`parsed.map(this.deserializeTask).filter(Boolean)`.  Because the
deserializer is passed unbound (see `deserializeTaskUnbound`), every
element maps to `null` and is filtered out, so the stored content never
survives a load. -/
def findAll (store : Store) : List TaskEntity :=
  match store with
  | none => []
  | some (Json.arr elems) => (elems.map deserializeTaskUnbound).reduceOption
  | some _ => []

/-- Hexadecimal digit character (lowercase, as `JSON.stringify` emits in
`\u00XX` escapes). -/
def hexDigit (d : Nat) : Char :=
  if d < 10 then Char.ofNat (48 + d) else Char.ofNat (87 + d)

/-- How `JSON.stringify` renders one character inside a quoted string:
quote, backslash and the control characters are escaped, everything else
is copied through. -/
def escapeChar (c : Char) : List Char :=
  if c = '"' then ['\\', '"']
  else if c = '\\' then ['\\', '\\']
  else if c = '\u0008' then ['\\', 'b']
  else if c = '\t' then ['\\', 't']
  else if c = '\n' then ['\\', 'n']
  else if c = '\u000C' then ['\\', 'f']
  else if c = '\r' then ['\\', 'r']
  else if c.toNat < 32 then
    ['\\', 'u', '0', '0', hexDigit (c.toNat / 16), hexDigit (c.toNat % 16)]
  else [c]

/-- Quoted-string rendering of `JSON.stringify`. -/
def quoteChars (s : List Char) : List Char :=
  '"' :: (s.map escapeChar).flatten ++ ['"']

mutual

/-- Model of `JSON.stringify` (no indentation, as the source calls it).
Only the output's length matters to the repository (the size ceiling);
integers stand in for the JSON numbers. -/
def jstringify : Json → List Char
  | Json.str s => quoteChars s
  | Json.num n =>
    if n < 0 then '-' :: toDecimal n.natAbs else toDecimal n.natAbs
  | Json.bool b => if b then ['t', 'r', 'u', 'e'] else ['f', 'a', 'l', 's', 'e']
  | Json.null => ['n', 'u', 'l', 'l']
  | Json.arr elems => '[' :: jstringifyElems elems ++ [']']
  | Json.obj fields => '{' :: jstringifyFields fields ++ ['}']

/-- Comma-separated renderings of an array's elements. -/
def jstringifyElems : List Json → List Char
  | [] => []
  | [v] => jstringify v
  | v :: rest => jstringify v ++ ',' :: jstringifyElems rest

/-- Comma-separated `"key":value` renderings of an object's fields. -/
def jstringifyFields : List (List Char × Json) → List Char
  | [] => []
  | [(k, v)] => quoteChars k ++ ':' :: jstringify v
  | (k, v) :: rest =>
    (quoteChars k ++ ':' :: jstringify v) ++ ',' :: jstringifyFields rest

end

/-- `LocalStorageTaskRepository.MAX_STORAGE_SIZE`: `5 * 1024 * 1024`. -/
def maxStorageSize : Nat := 5 * 1024 * 1024

/-- The failures of `LocalStorageTaskRepository.save`.  `limitExceeded`
is the throw of `Error('Data exceeds maximum storage size')` (rethrown
by the catch block as `Failed to save tasks: ...` — the spec's
`StorageLimitError`); `serializationFailed` is a `toISOString` throw on
an Invalid Date, rethrown the same way. -/
inductive SaveError where
  | limitExceeded
  | serializationFailed
deriving DecidableEq

/-- `LocalStorageTaskRepository.save` as a transition on the storage
slot: serialize all tasks, reject the batch when its rendered length
exceeds the ceiling, only then write.  The pair is (call result, storage
slot after the call). -/
def save (store : Store) (tasks : List TaskEntity) :
    Except SaveError Unit × Store :=
  match serializeAll tasks with
  | none => (Except.error SaveError.serializationFailed, store)
  | some objs =>
    if maxStorageSize < (jstringify (Json.arr objs)).length then
      (Except.error SaveError.limitExceeded, store)
    else (Except.ok (), some (Json.arr objs))

/-! ## Arithmetic of the decimal rendering -/

lemma decVal_decDigit : ∀ d, d < 10 → decVal (decDigit d) = d := by decide

lemma isDecDigit_decDigit : ∀ d, d < 10 → isDecDigit (decDigit d) = true := by
  decide

lemma fromDecRev_toDecRevAux :
    ∀ fuel n, n < fuel → fromDecRev (toDecRevAux fuel n) = n := by
  intro fuel
  induction fuel with
  | zero => intro n h; omega
  | succ f ih =>
    intro n h
    by_cases h10 : n < 10
    · simp [toDecRevAux, h10, fromDecRev, decVal_decDigit n h10]
    · have hpos : 0 < n := by omega
      have hlt : n / 10 < n := Nat.div_lt_self hpos (by omega)
      have : n / 10 < f := by omega
      simp [toDecRevAux, h10, fromDecRev, ih _ this,
        decVal_decDigit (n % 10) (by omega)]
      omega

lemma toDecRevAux_digits :
    ∀ fuel n c, c ∈ toDecRevAux fuel n → isDecDigit c = true := by
  intro fuel
  induction fuel with
  | zero => intro n c h; simp [toDecRevAux] at h
  | succ f ih =>
    intro n c h
    by_cases h10 : n < 10
    · simp [toDecRevAux, h10] at h
      simpa [h] using isDecDigit_decDigit n h10
    · simp [toDecRevAux, h10] at h
      rcases h with h | h
      · simpa [h] using isDecDigit_decDigit (n % 10) (by omega)
      · exact ih _ _ h

lemma toDecRevAux_ne_nil (fuel n : Nat) (h : 0 < fuel) :
    toDecRevAux fuel n ≠ [] := by
  cases fuel with
  | zero => omega
  | succ f =>
    by_cases h10 : n < 10 <;> simp [toDecRevAux, h10]

/-- The millisecond rendering parses back to the millisecond value: the
round-trip of the modelled platform `Date` serialization. -/
lemma parseTime_isoOfTime (n : Nat) : parseTime (isoOfTime n) = some n := by
  have hne : toDecRev n ≠ [] := toDecRevAux_ne_nil _ _ (by omega)
  have hdig : ∀ c ∈ toDecRev n, isDecDigit c = true := fun c hc =>
    toDecRevAux_digits _ _ _ hc
  unfold parseTime isoOfTime toDecimal
  rw [if_pos]
  · unfold fromDecimal
    rw [List.reverse_reverse]
    exact congrArg some (fromDecRev_toDecRevAux _ _ (by omega))
  · refine ⟨by simpa using hne, ?_⟩
    rw [List.all_eq_true]
    intro c hc
    exact hdig c (List.mem_reverse.mp hc)

/-! ## C4: task creation -/

/-- C4: `createTask` returns the input title trimmed and with internal
whitespace runs collapsed (`'  a   b  '` becomes `'a b'`), rejects with
the validation error exactly when the normalized length lies outside
`[1, 255]`, and cannot fail any other way (its only error value is
`DomainError.validationError`, and a successful task is fully
determined: normalized title, `pending`, both timestamps `now`). -/
theorem createTask_contract (data : TaskCreationData) (now : Nat) :
    (∀ t, createTask data now = Except.ok t →
      t = { id := generateId now
            title := sanitizeTitle data.title
            status := TaskStatus.pending
            createdAt := some now
            updatedAt := some now }) ∧
    (createTask data now = Except.error DomainError.validationError ↔
      ((sanitizeTitle data.title).length = 0 ∨
        255 < (sanitizeTitle data.title).length)) ∧
    sanitizeTitle ("  a   b  ".toList) = "a b".toList := by
  refine ⟨?_, ?_, by decide⟩
  · intro t h
    unfold createTask at h
    by_cases hv : validateTitle (sanitizeTitle data.title) = true <;>
      simp [hv] at h
    exact h.symm
  · unfold createTask
    by_cases hv : validateTitle (sanitizeTitle data.title) = true
    · rw [if_pos hv]
      simp only [validateTitle, Bool.and_eq_true, decide_eq_true_eq] at hv
      simp only [reduceCtorEq, false_iff]
      omega
    · rw [if_neg hv]
      have hyes : (sanitizeTitle data.title).length = 0 ∨
          255 < (sanitizeTitle data.title).length := by
        by_contra hc
        exact hv (by simp only [validateTitle, Bool.and_eq_true,
          decide_eq_true_eq]; omega)
      rcases hyes with h | h
      · simp [List.length_eq_zero.mp h]
      · simp [h]

set_option maxRecDepth 20000 in
/-- Witness for C4 at concrete titles: the whitespace example succeeds
with title `'a b'`, the empty title and a 256-character title fail, a
255-character title does not fail. -/
theorem createTask_contract_witness :
    createTask { title := "  a   b  ".toList } 0 =
      Except.ok { id := generateId 0, title := "a b".toList
                  status := TaskStatus.pending, createdAt := some 0
                  updatedAt := some 0 } ∧
    createTask { title := [] } 0 = Except.error DomainError.validationError ∧
    createTask { title := List.replicate 256 'a' } 0 =
      Except.error DomainError.validationError ∧
    createTask { title := List.replicate 255 'a' } 0 ≠
      Except.error DomainError.validationError := by
  refine ⟨by decide, ?_, ?_, ?_⟩
  · exact (createTask_contract { title := [] } 0).2.1.mpr (Or.inl (by decide))
  · exact (createTask_contract { title := List.replicate 256 'a' } 0).2.1.mpr
      (Or.inr (by decide))
  · exact (not_congr (createTask_contract
      { title := List.replicate 255 'a' } 0).2.1).mpr (by decide)

/-! ## C1 and C9: update timestamps -/

/-- Condition under which the source's `hasChanges` flag ends up set: a
present title patch (regardless of its value), or a present status patch
differing from the task's status. -/
def patchChanges (task : TaskEntity) (updates : TaskUpdateData) : Bool :=
  updates.title.isSome ||
    (match updates.status with
     | some st => decide (st ≠ task.status)
     | none => false)

lemma updateTask_ok_fields {task : TaskEntity} {updates : TaskUpdateData}
    {now : Nat} {t' : TaskEntity}
    (h : updateTask task updates now = Except.ok t') :
    t'.id = task.id ∧ t'.createdAt = task.createdAt ∧
    t'.updatedAt =
      (if patchChanges task updates then some now else task.updatedAt) := by
  obtain ⟨otitle, ostatus⟩ := updates
  unfold updateTask at h
  cases otitle with
  | none =>
    cases ostatus with
    | none =>
      simp [patchChanges] at h ⊢
      simp [← h]
    | some st =>
      by_cases hst : st = task.status <;>
        simp [patchChanges, hst] at h ⊢ <;> simp [← h]
  | some t =>
    by_cases hv : validateTitle (sanitizeTitle t) = true
    · cases ostatus with
      | none => simp [patchChanges, hv] at h ⊢; simp [← h]
      | some st =>
        by_cases hst : st = task.status <;>
          simp [patchChanges, hv, hst] at h ⊢ <;> simp [← h]
    · cases ostatus <;> simp [hv] at h

lemma updateTask_noop {task : TaskEntity} {updates : TaskUpdateData}
    {now : Nat} (htitle : updates.title = none)
    (hstatus : updates.status = none ∨ updates.status = some task.status) :
    updateTask task updates now = Except.ok task := by
  obtain ⟨otitle, ostatus⟩ := updates
  simp only at htitle hstatus
  subst htitle
  rcases hstatus with h | h <;> subst h <;> simp [updateTask]

/-- Sample task used to exercise the domain operations on concrete
inputs. -/
def sampleTask : TaskEntity :=
  { id := "i".toList
    title := "a".toList
    status := TaskStatus.pending
    createdAt := some 0
    updatedAt := some 0 }

/-- Result of completing `sampleTask` at time 9. -/
def bumpedSample : TaskEntity :=
  { sampleTask with status := TaskStatus.completed, updatedAt := some 9 }

/-- Result of toggling `sampleTask` at time 7. -/
def toggledSample : TaskEntity :=
  { sampleTask with status := TaskStatus.completed, updatedAt := some 7 }

/-- The task `createTask { title := 'b' }` produces at time 0. -/
def createdB : TaskEntity :=
  { id := generateId 0
    title := "b".toList
    status := TaskStatus.pending
    createdAt := some 0
    updatedAt := some 0 }

/-- The task `createTask { title := 'c' }` produces at time 4. -/
def createdC : TaskEntity :=
  { id := generateId 4
    title := "c".toList
    status := TaskStatus.pending
    createdAt := some 4
    updatedAt := some 4 }

/-- C1 fails as stated: a title patch whose normalized value equals the
task's current title still bumps `updatedAt` (the source sets its
`hasChanges` flag for every present title, without comparing it to the
current one).  Concretely, patching `sampleTask` (title `'a'`, updatedAt
0) with title `'a'` at time 5 returns `updatedAt = some 5`, not the
untouched `some 0` the claim requires. -/
theorem updateTask_equalTitle_bumps :
    sanitizeTitle ("a".toList) = sampleTask.title ∧
    sampleTask.updatedAt = some 0 ∧
    updateTask sampleTask { title := some ("a".toList), status := none } 5 =
      Except.ok { sampleTask with updatedAt := some 5 } ∧
    ({ sampleTask with updatedAt := some 5 } : TaskEntity).updatedAt ≠
      sampleTask.updatedAt := by decide

/-- C1 (amended): a successful `updateTask` keeps `id` (and `createdAt`)
unchanged, leaves `updatedAt` exactly equal to the input's when the
patch is empty or carries only a status equal to the current one, and
sets `updatedAt` to the current time whenever the patch carries a title
(even one normalizing to the current title) or a differing status. -/
theorem updateTask_updatedAt_contract :
    ∀ (task : TaskEntity) (updates : TaskUpdateData) (now : Nat)
      (t' : TaskEntity),
    updateTask task updates now = Except.ok t' →
    t'.id = task.id ∧ t'.createdAt = task.createdAt ∧
    t'.updatedAt =
      (if patchChanges task updates then some now else task.updatedAt) :=
  fun _ _ _ _ h => updateTask_ok_fields h

/-- Witness for the amended C1: completing `sampleTask` at time 9 keeps
its id and sets `updatedAt` per the `patchChanges` condition. -/
theorem updateTask_updatedAt_contract_witness :
    bumpedSample.id = sampleTask.id ∧
    bumpedSample.createdAt = sampleTask.createdAt ∧
    bumpedSample.updatedAt =
      (if patchChanges sampleTask
          { title := none, status := some TaskStatus.completed }
        then some 9 else sampleTask.updatedAt) :=
  updateTask_updatedAt_contract sampleTask
    { title := none, status := some TaskStatus.completed } 9 bumpedSample
    (by decide)

/-- C9 fails in its equality clause: after creation (createdAt =
updatedAt = 0), an update whose title patch equals the current title is
not a "mutation that actually changes title or status" — title and
status both stay the same — yet it bumps `updatedAt` to 3, breaking the
claimed equality-until-first-real-change. -/
theorem sameTitle_update_breaks_timestamp_equality :
    createTask { title := "b".toList } 0 = Except.ok createdB ∧
    createdB.createdAt = createdB.updatedAt ∧
    updateTask createdB { title := some ("b".toList), status := none } 3 =
      Except.ok { createdB with updatedAt := some 3 } ∧
    ({ createdB with updatedAt := some 3 } : TaskEntity).title =
      createdB.title ∧
    ({ createdB with updatedAt := some 3 } : TaskEntity).status =
      createdB.status ∧
    ({ createdB with updatedAt := some 3 } : TaskEntity).createdAt = some 0 ∧
    ({ createdB with updatedAt := some 3 } : TaskEntity).updatedAt =
      some 3 := by decide

/-- C9 (amended): `createTask` sets `createdAt = updatedAt = now`; under
normal clock progression (`now` at least the task's `updatedAt`) every
successful `updateTask` and `toggleTaskStatus` preserves
`createdAt ≤ updatedAt` while never touching `createdAt`; and the
equality `updatedAt = createdAt` persists exactly until the first update
whose patch carries a title field or a status different from the current
one (an empty or no-effect status patch returns the task unchanged). -/
theorem timestamp_invariant :
    (∀ data now t, createTask data now = Except.ok t →
      t.createdAt = some now ∧ t.updatedAt = some now) ∧
    (∀ task updates now t' c v,
      updateTask task updates now = Except.ok t' →
      task.createdAt = some c → task.updatedAt = some v →
      c ≤ v → v ≤ now →
      t'.createdAt = some c ∧ ∃ v', t'.updatedAt = some v' ∧ c ≤ v') ∧
    (∀ task now t' c v,
      toggleTaskStatus task now = Except.ok t' →
      task.createdAt = some c → task.updatedAt = some v →
      c ≤ v → v ≤ now →
      t'.createdAt = some c ∧ ∃ v', t'.updatedAt = some v' ∧ c ≤ v') ∧
    (∀ (task : TaskEntity) (updates : TaskUpdateData) (now : Nat),
      updates.title = none →
      (updates.status = none ∨ updates.status = some task.status) →
      updateTask task updates now = Except.ok task) := by
  have hupd : ∀ task updates now t' c v,
      updateTask task updates now = Except.ok t' →
      task.createdAt = some c → task.updatedAt = some v →
      c ≤ v → v ≤ now →
      t'.createdAt = some c ∧ ∃ v', t'.updatedAt = some v' ∧ c ≤ v' := by
    intro task updates now t' c v h hc hv hcv hvn
    obtain ⟨_, hca, hua⟩ := updateTask_ok_fields h
    refine ⟨by rw [hca, hc], ?_⟩
    by_cases hch : patchChanges task updates = true
    · exact ⟨now, by rw [hua, if_pos hch], by omega⟩
    · exact ⟨v, by rw [hua, if_neg hch, hv], hcv⟩
  refine ⟨?_, hupd, ?_, ?_⟩
  · intro data now t h
    unfold createTask at h
    by_cases hval : validateTitle (sanitizeTitle data.title) = true <;>
      simp [hval] at h
    simp [← h]
  · intro task now t' c v h hc hv hcv hvn
    exact hupd task _ now t' c v h hc hv hcv hvn
  · intro task updates now h1 h2
    exact updateTask_noop h1 h2

/-- Witness for the amended C9 at concrete inputs: creation at time 4
sets both timestamps to 4, and toggling `sampleTask` at time 7 keeps
`createdAt = some 0`. -/
theorem timestamp_invariant_witness :
    (createdC.createdAt = some 4 ∧ createdC.updatedAt = some 4) ∧
    toggledSample.createdAt = some 0 :=
  ⟨timestamp_invariant.1 { title := "c".toList } 4 createdC (by decide),
   (timestamp_invariant.2.2.1 sampleTask 7 toggledSample 0 0 (by decide)
      rfl rfl (by decide) (by decide)).1⟩

/-! ## C6: filtering -/

/-- C6: the `all` filter returns the input list itself; the `active` and
`completed` filters partition it exactly — together they account for
every element once, each output is a sublist of the input (order
preserved, nothing mutated), and membership is characterized by the
status test. -/
theorem filterTasks_partition (ts : List TaskEntity) :
    filterTasks ts FilterType.all = ts ∧
    (filterTasks ts FilterType.active).Sublist ts ∧
    (filterTasks ts FilterType.completed).Sublist ts ∧
    (filterTasks ts FilterType.active).length +
      (filterTasks ts FilterType.completed).length = ts.length ∧
    (∀ t, t ∈ filterTasks ts FilterType.active ↔
      t ∈ ts ∧ t.status = TaskStatus.pending) ∧
    (∀ t, t ∈ filterTasks ts FilterType.completed ↔
      t ∈ ts ∧ t.status = TaskStatus.completed) := by
  refine ⟨?_, List.filter_sublist _, List.filter_sublist _, ?_, ?_, ?_⟩
  · simp [filterTasks, filterPredicate]
  · induction ts with
    | nil => simp [filterTasks]
    | cons h t ih =>
      cases hst : h.status <;>
        simp [filterTasks, List.filter_cons, filterPredicate, hst] at ih ⊢ <;>
        omega
  · intro t
    simp [filterTasks, filterPredicate, List.mem_filter]
  · intro t
    simp [filterTasks, filterPredicate, List.mem_filter]

/-! ## C7 and C10: statistics -/

/-- Unfolds `calculateStats` on a non-empty list: the completion rate is
the rounded percentage of completed tasks, exactly as the source
computes it. -/
lemma completionRate_formula (ts : List TaskEntity) (h : 0 < ts.length) :
    (calculateStats ts).completionRate =
      jsRound
        (((ts.filter (fun t => t.status = TaskStatus.completed)).length : ℚ) /
          (ts.length : ℚ) * 100) := by
  have : (0 : ℤ) < (ts.length : ℤ) := by exact_mod_cast h
  simp only [calculateStats, this, if_pos]
  norm_num

/-- Bounds for the modelled `Math.round` on arguments in `[0, 100]`. -/
lemma jsRound_bounds {q : ℚ} (h0 : 0 ≤ q) (h1 : q ≤ 100) :
    0 ≤ jsRound q ∧ jsRound q ≤ 100 := by
  constructor
  · exact Int.le_floor.mpr (by push_cast; linarith)
  · have : jsRound q < 101 := Int.floor_lt.mpr (by push_cast; linarith)
    omega

/-- C7: `calculateStats` returns all zeroes on the empty list and
otherwise the integer percentage `round(100 * completed / total)`
(halves toward `+∞`, as `Math.round` rounds); with 3 tasks of which
exactly 1 is completed the rate is exactly 33. -/
theorem calculateStats_completionRate :
    calculateStats [] = ⟨0, 0, 0, 0⟩ ∧
    (∀ ts : List TaskEntity, 0 < ts.length →
      (calculateStats ts).completionRate =
        jsRound
          (100 * (ts.countP (fun t => t.status = TaskStatus.completed) : ℚ) /
            (ts.length : ℚ))) ∧
    (∀ ts : List TaskEntity, ts.length = 3 →
      ts.countP (fun t => t.status = TaskStatus.completed) = 1 →
      (calculateStats ts).completionRate = 33) := by
  have hformula : ∀ ts : List TaskEntity, 0 < ts.length →
      (calculateStats ts).completionRate =
        jsRound
          (100 * (ts.countP (fun t => t.status = TaskStatus.completed) : ℚ) /
            (ts.length : ℚ)) := by
    intro ts h
    rw [completionRate_formula ts h, List.countP_eq_length_filter]
    congr 1
    ring
  refine ⟨by decide, hformula, ?_⟩
  intro ts hlen hcount
  rw [hformula ts (by omega), hcount, hlen]
  unfold jsRound
  norm_num

/-- Witness for C7: a concrete three-task list with one completed task
has completion rate 33, and the empty list gives the all-zero record. -/
theorem calculateStats_completionRate_witness :
    (calculateStats
      [sampleTask, bumpedSample, { sampleTask with id := "k".toList }]
      ).completionRate = 33 ∧
    calculateStats [] = ⟨0, 0, 0, 0⟩ :=
  ⟨calculateStats_completionRate.2.2
      [sampleTask, bumpedSample, { sampleTask with id := "k".toList }]
      (by decide) (by decide),
   calculateStats_completionRate.1⟩

/-- C10 (implicit): the statistics record is internally consistent —
`0 ≤ completed ≤ total`, `pending = total − completed`, and the
completion rate is a percentage in `[0, 100]`. -/
theorem calculateStats_consistent (ts : List TaskEntity) :
    0 ≤ (calculateStats ts).completed ∧
    (calculateStats ts).completed ≤ (calculateStats ts).total ∧
    (calculateStats ts).pending =
      (calculateStats ts).total - (calculateStats ts).completed ∧
    0 ≤ (calculateStats ts).completionRate ∧
    (calculateStats ts).completionRate ≤ 100 := by
  have hle := List.length_filter_le
    (fun t : TaskEntity => decide (t.status = TaskStatus.completed)) ts
  refine ⟨by simp [calculateStats], ?_, by simp [calculateStats], ?_⟩
  · simp only [calculateStats]
    exact_mod_cast hle
  · rcases Nat.eq_zero_or_pos ts.length with hz | hpos
    · simp [calculateStats, List.length_eq_zero.mp hz]
    · rw [completionRate_formula ts hpos]
      have hq0 : (0 : ℚ) ≤
          ((ts.filter (fun t => t.status = TaskStatus.completed)).length : ℚ) /
            (ts.length : ℚ) * 100 := by positivity
      have hq1 :
          ((ts.filter (fun t => t.status = TaskStatus.completed)).length : ℚ) /
            (ts.length : ℚ) * 100 ≤ 100 := by
        have hdiv :
            ((ts.filter (fun t => t.status = TaskStatus.completed)).length : ℚ) /
              (ts.length : ℚ) ≤ 1 := by
          rw [div_le_one (by exact_mod_cast hpos)]
          exact_mod_cast hle
        nlinarith
      exact jsRound_bounds hq0 hq1

/-! ## C8: sorting by creation date -/

lemma stableInsert_perm (le : α → α → Bool) (x : α) :
    ∀ l : List α, (stableInsert le x l).Perm (x :: l) := by
  intro l
  induction l with
  | nil => rfl
  | cons y ys ih =>
    by_cases hle : le x y = true
    · simp [stableInsert, hle]
    · have hle' : le x y = false := by simpa using hle
      simp only [stableInsert, hle', Bool.false_eq_true, if_false]
      exact (ih.cons y).trans (List.Perm.swap x y ys)

lemma stableSort_perm (le : α → α → Bool) :
    ∀ l : List α, (stableSort le l).Perm l := by
  intro l
  induction l with
  | nil => rfl
  | cons x xs ih =>
    exact (stableInsert_perm le x (stableSort le xs)).trans (ih.cons x)

lemma mem_stableInsert {le : α → α → Bool} {x z : α} {l : List α} :
    z ∈ stableInsert le x l ↔ z = x ∨ z ∈ l := by
  rw [(stableInsert_perm le x l).mem_iff]
  simp

lemma stableInsert_filter (p : α → Bool) (le : α → α → Bool) (x : α)
    (l : List α) (h : ∀ y, le x y = false → p x = true → p y = false) :
    (stableInsert le x l).filter p =
      if p x then x :: l.filter p else l.filter p := by
  induction l with
  | nil =>
    by_cases hpx : p x = true <;> simp [stableInsert, List.filter, hpx]
  | cons y ys ih =>
    by_cases hle : le x y = true
    · by_cases hpx : p x = true <;>
        simp [stableInsert, hle, List.filter_cons, hpx]
    · have hle' : le x y = false := by simpa using hle
      simp only [stableInsert, hle', Bool.false_eq_true, if_false]
      by_cases hpx : p x = true
      · have hpy := h y hle' hpx
        simp [List.filter_cons, hpy, ih, hpx]
      · have hpx' : p x = false := by simpa using hpx
        by_cases hpy : p y = true <;>
          simp [List.filter_cons, ih, hpx', hpy]

lemma stableSort_filter (p le : _) (h : ∀ x y : α, le x y = false →
    p x = true → p y = false) :
    ∀ l : List α, (stableSort le l).filter p = l.filter p := by
  intro l
  induction l with
  | nil => rfl
  | cons x xs ih =>
    simp only [stableSort]
    rw [stableInsert_filter p le x _ (fun y hy hx => h x y hy hx), ih]
    by_cases hpx : p x = true <;> simp [List.filter_cons, hpx]

lemma stableInsert_pairwise {P : α → Prop} {R : α → α → Prop}
    {le : α → α → Bool}
    (h1 : ∀ a b, P a → P b → le a b = true → R a b)
    (h2 : ∀ a b, P a → P b → le a b = false → R b a)
    (h3 : ∀ a b c, P a → P b → P c → R a b → R b c → R a c)
    (x : α) (hx : P x) :
    ∀ l : List α, (∀ y ∈ l, P y) → l.Pairwise R →
      (stableInsert le x l).Pairwise R := by
  intro l
  induction l with
  | nil => intro _ _; simp [stableInsert]
  | cons y ys ih =>
    intro hmem hpw
    obtain ⟨hy_all, hpw_ys⟩ := List.pairwise_cons.mp hpw
    by_cases hle : le x y = true
    · simp only [stableInsert, hle, if_true]
      refine List.pairwise_cons.mpr ⟨?_, hpw⟩
      intro z hz
      rcases List.mem_cons.mp hz with rfl | hz'
      · exact h1 x z hx (hmem z (by simp)) hle
      · have hRxy := h1 x y hx (hmem y (by simp)) hle
        exact h3 x y z hx (hmem y (by simp))
          (hmem z (by simp [hz'])) hRxy (hy_all z hz')
    · have hle' : le x y = false := by simpa using hle
      simp only [stableInsert, hle', Bool.false_eq_true, if_false]
      refine List.pairwise_cons.mpr
        ⟨?_, ih (fun z hz => hmem z (by simp [hz])) hpw_ys⟩
      intro z hz
      rcases mem_stableInsert.mp hz with rfl | hz'
      · exact h2 z y hx (hmem y (by simp)) hle'
      · exact hy_all z hz'

lemma stableSort_pairwise {P : α → Prop} {R : α → α → Prop}
    {le : α → α → Bool}
    (h1 : ∀ a b, P a → P b → le a b = true → R a b)
    (h2 : ∀ a b, P a → P b → le a b = false → R b a)
    (h3 : ∀ a b c, P a → P b → P c → R a b → R b c → R a c) :
    ∀ l : List α, (∀ y ∈ l, P y) → (stableSort le l).Pairwise R := by
  intro l
  induction l with
  | nil => intro _; simp [stableSort]
  | cons x xs ih =>
    intro hmem
    refine stableInsert_pairwise h1 h2 h3 x (hmem x (by simp)) _ ?_
      (ih (fun y hy => hmem y (by simp [hy])))
    intro y hy
    exact hmem y (by simp [(stableSort_perm le xs).mem_iff.mp hy])

lemma keepsOrder_false_asc {x y : TaskEntity}
    (h : keepsOrder false x y = false) :
    ∃ kx ky, x.createdAt = some kx ∧ y.createdAt = some ky ∧ ky < kx := by
  unfold keepsOrder sortComparator compareCreatedAt at h
  cases hx : x.createdAt <;> cases hy : y.createdAt <;>
    simp [hx, hy] at h
  exact ⟨_, _, rfl, rfl, by omega⟩

lemma keepsOrder_false_desc {x y : TaskEntity}
    (h : keepsOrder true x y = false) :
    ∃ kx ky, x.createdAt = some kx ∧ y.createdAt = some ky ∧ kx < ky := by
  unfold keepsOrder sortComparator compareCreatedAt at h
  cases hx : x.createdAt <;> cases hy : y.createdAt <;>
    simp [hx, hy] at h
  exact ⟨_, _, rfl, rfl, by omega⟩

lemma keepsOrder_filter (d : Bool) (k : Nat) :
    ∀ x y : TaskEntity, keepsOrder d x y = false →
      decide (x.createdAt = some k) = true →
      decide (y.createdAt = some k) = false := by
  intro x y h hx
  cases d
  · obtain ⟨kx, ky, hcx, hcy, hlt⟩ := keepsOrder_false_asc h
    simp only [decide_eq_true_eq] at hx
    simp only [decide_eq_false_iff_not, hcy]
    rw [hcx] at hx
    intro hconf
    simp only [Option.some.injEq] at hx hconf
    omega
  · obtain ⟨kx, ky, hcx, hcy, hlt⟩ := keepsOrder_false_desc h
    simp only [decide_eq_true_eq] at hx
    simp only [decide_eq_false_iff_not, hcy]
    rw [hcx] at hx
    intro hconf
    simp only [Option.some.injEq] at hx hconf
    omega

/-- C8: `sortTasksByCreationDate` returns a permutation of its input in
both directions; it is stable — for every timestamp `k` the subsequence
of tasks created at `k` is exactly the input's subsequence, in input
order, regardless of direction; and on lists of tasks with valid
creation dates the ascending output is pairwise non-decreasing and the
descending output pairwise non-increasing in `createdAt`. -/
theorem sortByCreation_stable (ts : List TaskEntity) :
    (sortTasksByCreationDate ts false).Perm ts ∧
    (sortTasksByCreationDate ts true).Perm ts ∧
    (∀ k : Nat,
      (sortTasksByCreationDate ts false).filter
          (fun t => t.createdAt = some k) =
        ts.filter (fun t => t.createdAt = some k)) ∧
    (∀ k : Nat,
      (sortTasksByCreationDate ts true).filter
          (fun t => t.createdAt = some k) =
        ts.filter (fun t => t.createdAt = some k)) ∧
    ((∀ t ∈ ts, t.createdAt.isSome) →
      (sortTasksByCreationDate ts false).Pairwise
        (fun a b => a.createdAt.getD 0 ≤ b.createdAt.getD 0) ∧
      (sortTasksByCreationDate ts true).Pairwise
        (fun a b => b.createdAt.getD 0 ≤ a.createdAt.getD 0)) := by
  refine ⟨stableSort_perm _ ts, stableSort_perm _ ts, ?_, ?_, ?_⟩
  · intro k
    exact stableSort_filter _ _ (keepsOrder_filter false k) ts
  · intro k
    exact stableSort_filter _ _ (keepsOrder_filter true k) ts
  · intro hvalid
    constructor
    · refine stableSort_pairwise ?_ ?_ ?_ ts hvalid
      · intro a b ha hb hle
        obtain ⟨ka, hka⟩ := Option.isSome_iff_exists.mp ha
        obtain ⟨kb, hkb⟩ := Option.isSome_iff_exists.mp hb
        unfold keepsOrder sortComparator compareCreatedAt at hle
        rw [hka, hkb] at hle
        simp at hle
        show a.createdAt.getD 0 ≤ b.createdAt.getD 0
        rw [hka, hkb]
        simp only [Option.getD_some]
        omega
      · intro a b ha hb hle
        obtain ⟨ka, kb, hka, hkb, hlt⟩ := keepsOrder_false_asc hle
        show b.createdAt.getD 0 ≤ a.createdAt.getD 0
        rw [hka, hkb]
        simp only [Option.getD_some]
        omega
      · intro a b c _ _ _ hab hbc
        omega
    · refine stableSort_pairwise ?_ ?_ ?_ ts hvalid
      · intro a b ha hb hle
        obtain ⟨ka, hka⟩ := Option.isSome_iff_exists.mp ha
        obtain ⟨kb, hkb⟩ := Option.isSome_iff_exists.mp hb
        unfold keepsOrder sortComparator compareCreatedAt at hle
        rw [hka, hkb] at hle
        simp at hle
        show b.createdAt.getD 0 ≤ a.createdAt.getD 0
        rw [hka, hkb]
        simp only [Option.getD_some]
        omega
      · intro a b ha hb hle
        obtain ⟨ka, kb, hka, hkb, hlt⟩ := keepsOrder_false_desc hle
        show a.createdAt.getD 0 ≤ b.createdAt.getD 0
        rw [hka, hkb]
        simp only [Option.getD_some]
        omega
      · intro a b c _ _ _ hab hbc
        omega

/-- Witness for C8: a concrete four-task list with a duplicated
timestamp sorts to a pairwise-ordered permutation keeping the two
tasks created at time 5 in their input order. -/
theorem sortByCreation_stable_witness :
    (sortTasksByCreationDate
        [{ sampleTask with id := "a".toList, createdAt := some 5 },
         { sampleTask with id := "b".toList, createdAt := some 1 },
         { sampleTask with id := "c".toList, createdAt := some 5 },
         { sampleTask with id := "d".toList, createdAt := some 0 }]
        false).filter (fun t => t.createdAt = some 5) =
      [{ sampleTask with id := "a".toList, createdAt := some 5 },
       { sampleTask with id := "c".toList, createdAt := some 5 }] ∧
    (sortTasksByCreationDate
        [{ sampleTask with id := "a".toList, createdAt := some 5 },
         { sampleTask with id := "b".toList, createdAt := some 1 },
         { sampleTask with id := "c".toList, createdAt := some 5 },
         { sampleTask with id := "d".toList, createdAt := some 0 }]
        true).Pairwise
      (fun a b => b.createdAt.getD 0 ≤ a.createdAt.getD 0) := by
  constructor
  · rw [(sortByCreation_stable
      [{ sampleTask with id := "a".toList, createdAt := some 5 },
       { sampleTask with id := "b".toList, createdAt := some 1 },
       { sampleTask with id := "c".toList, createdAt := some 5 },
       { sampleTask with id := "d".toList, createdAt := some 0 }]).2.2.1 5]
    decide
  · exact ((sortByCreation_stable
      [{ sampleTask with id := "a".toList, createdAt := some 5 },
       { sampleTask with id := "b".toList, createdAt := some 1 },
       { sampleTask with id := "c".toList, createdAt := some 5 },
       { sampleTask with id := "d".toList, createdAt := some 0 }]).2.2.2.2
      (by decide)).2

/-! ## C2: save/load round trip -/

lemma serializeTask_some {t : TaskEntity} {c u : Nat}
    (hc : t.createdAt = some c) (hu : t.updatedAt = some u) :
    serializeTask t = some (Json.obj
      [(idKey, Json.str t.id), (titleKey, Json.str t.title),
       (statusKey, Json.str (statusChars t.status)),
       (createdAtKey, Json.str (isoOfTime c)),
       (updatedAtKey, Json.str (isoOfTime u))]) := by
  unfold serializeTask
  rw [hc, hu]

lemma deserializeTask_serialized {t : TaskEntity} {c u : Nat}
    (hc : t.createdAt = some c) (hu : t.updatedAt = some u) :
    deserializeTask (Json.obj
      [(idKey, Json.str t.id), (titleKey, Json.str t.title),
       (statusKey, Json.str (statusChars t.status)),
       (createdAtKey, Json.str (isoOfTime c)),
       (updatedAtKey, Json.str (isoOfTime u))]) = some t := by
  obtain ⟨i, ti, st, oc, ou⟩ := t
  simp only at hc hu
  subst hc hu
  cases st <;>
    simp [deserializeTask, isValidTaskData, getField, isStrField, statusChars,
      idKey, titleKey, statusKey, createdAtKey, updatedAtKey,
      parseTime_isoOfTime]

lemma serializeAll_deserialize :
    ∀ (tasks : List TaskEntity) (objs : List Json),
    (∀ t ∈ tasks, t.createdAt.isSome ∧ t.updatedAt.isSome) →
    serializeAll tasks = some objs →
    (objs.map deserializeTask).reduceOption = tasks := by
  intro tasks
  induction tasks with
  | nil =>
    intro objs _ h
    unfold serializeAll at h
    simp only [Option.some.injEq] at h
    simp [← h, List.reduceOption]
  | cons t ts ih =>
    intro objs hvalid h
    obtain ⟨hc, hu⟩ := hvalid t (by simp)
    obtain ⟨c, hc'⟩ := Option.isSome_iff_exists.mp hc
    obtain ⟨u, hu'⟩ := Option.isSome_iff_exists.mp hu
    unfold serializeAll at h
    rw [serializeTask_some hc' hu'] at h
    cases hrest : serializeAll ts with
    | none => rw [hrest] at h; simp at h
    | some vs =>
      rw [hrest] at h
      simp only [Option.some.injEq] at h
      rw [← h]
      simp only [List.map_cons]
      rw [deserializeTask_serialized hc' hu']
      rw [List.reduceOption_cons_of_some]
      rw [ih vs (fun x hx => hvalid x (by simp [hx])) hrest]

/-- The record a successful save writes for `sampleTask`. -/
def sampleRecord : Json :=
  Json.obj
    [(idKey, Json.str ("i".toList)), (titleKey, Json.str ("a".toList)),
     (statusKey, Json.str (statusChars TaskStatus.pending)),
     (createdAtKey, Json.str (isoOfTime 0)),
     (updatedAtKey, Json.str (isoOfTime 0))]

set_option maxRecDepth 40000 in
/-- C2 fails on the code, which contradicts the spec's round-trip
promise: saving `[sampleTask]` succeeds and writes the expected record
— one that `deserializeTask`, invoked on its receiver, would map
straight back to `sampleTask` (the persisted format itself round-trips,
see `serializeAll_deserialize`) — yet loading the store that save just
produced returns `[]`, because `findAll` passes the deserializer
unbound to `map` and every element becomes `null`. -/
theorem saveAll_then_loadAll_empty :
    (save none [sampleTask]).1 = Except.ok () ∧
    (save none [sampleTask]).2 = some (Json.arr [sampleRecord]) ∧
    deserializeTask sampleRecord = some sampleTask ∧
    findAll (save none [sampleTask]).2 = [] :=
  ⟨by decide, by rfl, by decide, by rfl⟩

/-! ## C3: defensive deserialization -/

/-- A well-formed stored record: string `id` and `title`, status text
`'pending'`, timestamps rendered from the instants 3 and 4. -/
def goodRecord : Json :=
  Json.obj
    [(idKey, Json.str ("g".toList)), (titleKey, Json.str ("t".toList)),
     (statusKey, Json.str (statusChars TaskStatus.pending)),
     (createdAtKey, Json.str (isoOfTime 3)),
     (updatedAtKey, Json.str (isoOfTime 4))]

/-- The task `goodRecord` deserializes to. -/
def goodTask : TaskEntity :=
  { id := "g".toList
    title := "t".toList
    status := TaskStatus.pending
    createdAt := some 3
    updatedAt := some 4 }

/-- A stored record whose `createdAt` is the string `'x'` — a string,
so it passes validation, but not parseable as a timestamp. -/
def unparseableRecord : Json :=
  Json.obj
    [(idKey, Json.str ("b".toList)), (titleKey, Json.str ("t".toList)),
     (statusKey, Json.str (statusChars TaskStatus.pending)),
     (createdAtKey, Json.str ("x".toList)),
     (updatedAtKey, Json.str (isoOfTime 4))]

/-- What the deserializer, invoked on its receiver, yields for
`unparseableRecord`: a kept task with an Invalid Date in `createdAt`
(the real `findAll` never gets this far, see
`deserializeTaskUnbound`). -/
def unparseableTask : TaskEntity :=
  { id := "b".toList
    title := "t".toList
    status := TaskStatus.pending
    createdAt := none
    updatedAt := some 4 }

/-- A stored record with no `status` property at all. -/
def missingStatusRecord : Json :=
  Json.obj
    [(idKey, Json.str ("n".toList)), (titleKey, Json.str ("t".toList)),
     (createdAtKey, Json.str (isoOfTime 3)),
     (updatedAtKey, Json.str (isoOfTime 4))]

/-- C3 fails on the code, whose loader loses the valid elements the
spec promises to keep: `goodRecord` passes `isValidTaskData` and, were
the deserializer invoked on its receiver, would yield `goodTask`, while
`missingStatusRecord` fails validation — yet the real `findAll` on the
claim's own two-record store returns `[]`, not `[goodTask]`, because
the unbound `map(this.deserializeTask)` call turns every element into
`null` before any validation runs.  (Independently, the claim's keep
criterion would be wrong even for a bound call: validation checks only
that `createdAt`/`updatedAt` are strings, so `unparseableRecord`, whose
`createdAt` is the unparseable string `'x'`, would be kept with an
Invalid Date.) -/
theorem findAll_drops_valid_records :
    isValidTaskData goodRecord = true ∧
    deserializeTask goodRecord = some goodTask ∧
    isValidTaskData missingStatusRecord = false ∧
    parseTime ("x".toList) = none ∧
    deserializeTask unparseableRecord = some unparseableTask ∧
    findAll (some (Json.arr [goodRecord, missingStatusRecord])) = [] := by
  decide

/-- Validity of a stored element as the source actually checks it: a
record (JSON object) with string `id` and `title`, a `status` string
equal to `'pending'` or `'completed'`, and `createdAt`/`updatedAt` of
string type — timestamp parseability is not part of the check. -/
def RecordShapeOk (v : Json) : Prop :=
  ∃ fields, v = Json.obj fields ∧
    (∃ s, getField fields idKey = some (Json.str s)) ∧
    (∃ s, getField fields titleKey = some (Json.str s)) ∧
    (getField fields statusKey =
        some (Json.str (statusChars TaskStatus.pending)) ∨
      getField fields statusKey =
        some (Json.str (statusChars TaskStatus.completed))) ∧
    (∃ s, getField fields createdAtKey = some (Json.str s)) ∧
    (∃ s, getField fields updatedAtKey = some (Json.str s))

lemma isStrField_iff (o : Option Json) :
    isStrField o = true ↔ ∃ s, o = some (Json.str s) := by
  cases o with
  | none => simp [isStrField]
  | some v => cases v <;> simp [isStrField]

lemma isValidTaskData_iff (v : Json) :
    isValidTaskData v = true ↔ RecordShapeOk v := by
  constructor
  · intro hval
    cases v with
    | obj fields =>
      unfold isValidTaskData at hval
      simp only [Bool.and_eq_true] at hval
      obtain ⟨⟨⟨⟨h1, h2⟩, h3⟩, h4⟩, h5⟩ := hval
      obtain ⟨i, hi⟩ := (isStrField_iff _).mp h1
      obtain ⟨ti, hti⟩ := (isStrField_iff _).mp h2
      obtain ⟨cs, hcs⟩ := (isStrField_iff _).mp h4
      obtain ⟨us, hus⟩ := (isStrField_iff _).mp h5
      refine ⟨fields, rfl, ⟨i, hi⟩, ⟨ti, hti⟩, ?_, ⟨cs, hcs⟩, ⟨us, hus⟩⟩
      rcases hg : getField fields statusKey with _ | jv
      · rw [hg] at h3; simp at h3
      · rw [hg] at h3
        cases jv <;> simp at h3
        rcases h3 with h3 | h3
        · left; rw [h3]
        · right; rw [h3]
    | str s => simp [isValidTaskData] at hval
    | num n => simp [isValidTaskData] at hval
    | bool b => simp [isValidTaskData] at hval
    | null => simp [isValidTaskData] at hval
    | arr elems => simp [isValidTaskData] at hval
  · rintro ⟨fields, rfl, ⟨i, hi⟩, ⟨ti, hti⟩, hst, ⟨cs, hcs⟩, ⟨us, hus⟩⟩
    unfold isValidTaskData
    dsimp only
    rw [hi, hti, hcs, hus]
    rcases hst with h | h <;> rw [h] <;> simp [isStrField]

lemma deserializeTask_isSome_iff (v : Json) :
    (deserializeTask v).isSome = true ↔ isValidTaskData v = true := by
  constructor
  · intro h
    by_cases hval : isValidTaskData v = true
    · exact hval
    · unfold deserializeTask at h
      rw [if_neg hval] at h
      simp at h
  · intro hval
    obtain ⟨fields, rfl, ⟨i, hi⟩, ⟨ti, hti⟩, hst, ⟨cs, hcs⟩, ⟨us, hus⟩⟩ :=
      (isValidTaskData_iff v).mp hval
    unfold deserializeTask
    rw [if_pos hval]
    dsimp only
    rcases hst with h | h <;> rw [hi, hti, h, hcs, hus] <;> simp

/-! ## C5: storage size ceiling -/

/-- C5: when the serialized collection exceeds the configured ceiling,
`save` fails with the storage-limit error and the storage slot is left
exactly as it was — the size check runs before any write to the
backend. -/
theorem save_limit_aborts :
    ∀ (store : Store) (tasks : List TaskEntity) (objs : List Json),
    serializeAll tasks = some objs →
    maxStorageSize < (jstringify (Json.arr objs)).length →
    save store tasks = (Except.error SaveError.limitExceeded, store) := by
  intro store tasks objs hser hsize
  unfold save
  rw [hser]
  dsimp only
  rw [if_pos hsize]

/-- A title one character longer than the storage ceiling itself. -/
def hugeTitle : List Char := List.replicate (maxStorageSize + 1) 'a'

/-- A task carrying `hugeTitle`, whose serialization cannot fit. -/
def hugeTask : TaskEntity :=
  { id := "h".toList
    title := hugeTitle
    status := TaskStatus.pending
    createdAt := some 0
    updatedAt := some 0 }

/-- The serialized record of a task like `hugeTask` whose title is `n`
letters `a`. -/
def asciiRecord (n : Nat) : Json :=
  Json.obj
    [(idKey, Json.str ("h".toList)),
     (titleKey, Json.str (List.replicate n 'a')),
     (statusKey, Json.str (statusChars TaskStatus.pending)),
     (createdAtKey, Json.str (isoOfTime 0)),
     (updatedAtKey, Json.str (isoOfTime 0))]

/-- The serialized record of `hugeTask`. -/
def hugeRecord : Json := asciiRecord (maxStorageSize + 1)

lemma escapeChar_a : escapeChar 'a' = ['a'] := by decide

lemma serializedRecord_length (n : Nat) :
    (jstringify (Json.arr [asciiRecord n])).length = n + 74 := by
  simp [asciiRecord, jstringify, jstringifyElems, jstringifyFields, quoteChars,
    List.map_replicate, escapeChar_a, List.length_flatten, List.sum_replicate,
    idKey, titleKey, statusKey, createdAtKey, updatedAtKey, statusChars,
    escapeChar, isoOfTime, toDecimal, toDecRev, toDecRevAux, decDigit]

lemma hugeRecord_length :
    maxStorageSize < (jstringify (Json.arr [hugeRecord])).length := by
  unfold hugeRecord
  rw [serializedRecord_length]
  omega

/-- Witness for C5: saving the single over-large task into an empty
store fails with the limit error and leaves the store empty. -/
theorem save_limit_aborts_witness :
    save none [hugeTask] = (Except.error SaveError.limitExceeded, none) :=
  save_limit_aborts none [hugeTask] [hugeRecord] rfl hugeRecord_length

end TaskManager
